import Mathlib

/-!
Verification development for the medical-MCQ knowledge-extraction review
workflow (shallow embedding of the repository code).

The embedding follows the Python sources:
  app/services/kb_service.py        (triplet store)
  app/services/ingestion_service.py (source registry)
  app/tools/provenance_tools.py     (provenance verifier)
  app/ui/gradio_app.py              (pending queue, auto-accept, drafts, MCQs)

Strings are modelled as `List Char` where character-level behaviour matters
(provenance verification) and as `String` elsewhere.  The database is a
record of lists mirroring the relational tables; SQLAlchemy `first()` is
`List.find?`, inserts append, and in-place row updates map over row ids.
-/

namespace MCQ

/-- Whitespace characters recognised by Python `str.split()` / `str.strip()`
(ASCII subset). -/
def pyWs (c : Char) : Bool :=
  c = ' ' || c = '\t' || c = '\n' || c = '\r' || c = Char.ofNat 11 || c = Char.ofNat 12

/-- Embedding of Python `str.lower()` on a character list (ASCII). -/
def lowerL (s : List Char) : List Char := s.map Char.toLower

/-- Drop trailing whitespace (the right half of Python `str.strip()`). -/
def dropTrail (s : List Char) : List Char := (s.reverse.dropWhile pyWs).reverse

/-- Embedding of Python `str.strip()`: drop leading and trailing whitespace. -/
def stripL (s : List Char) : List Char := dropTrail (s.dropWhile pyWs)

/-- Embedding of Python `str.split()` with no separator: maximal runs of
non-whitespace characters, with whitespace runs discarded. -/
def pysplit : List Char → List (List Char)
  | [] => []
  | c :: cs =>
    if pyWs c then pysplit cs
    else (c :: cs.takeWhile (fun d => !pyWs d)) :: pysplit (cs.dropWhile (fun d => !pyWs d))
termination_by l => l.length
decreasing_by
  · simp only [List.length_cons]; omega
  · simp only [List.length_cons]
    exact Nat.lt_succ_of_le ((List.dropWhile_sublist _).length_le)

/-- Embedding of Python `" ".join(words)`. -/
def joinSpace : List (List Char) → List Char
  | [] => []
  | [w] => w
  | w :: ws => w ++ ' ' :: joinSpace ws

/-- Embedding of the Python idiom `" ".join(x.split())`: collapse every
whitespace run to a single space and trim both ends. -/
def pynormalize (s : List Char) : List Char := joinSpace (pysplit s)

mutual

/-- Recursive characterisation of `pynormalize` (proved equal below):
skip leading whitespace, then copy the first word. -/
def norm : List Char → List Char
  | [] => []
  | c :: cs => if pyWs c then norm cs else c :: normIn cs

/-- Companion of `norm` used after a non-whitespace character has been
emitted: a whitespace run becomes one space if another word follows. -/
def normIn : List Char → List Char
  | [] => []
  | c :: cs =>
    if pyWs c then (if norm cs = [] then [] else ' ' :: norm cs)
    else c :: normIn cs

end

/-- Embedding of Python `str.strip()` on `String`. -/
def pyStrip (s : String) : String := String.mk (stripL s.data)

/-- Python `str.isdigit()`: non-empty and every character a digit (ASCII). -/
def pyIsDigit (s : String) : Bool := !s.data.isEmpty && s.data.all Char.isDigit

/-- Python `int(s)` on an all-digit string. -/
def pyIntOfDigits (s : String) : Nat :=
  s.data.foldl (fun n c => 10 * n + (c.toNat - 48)) 0

/-!
## Data model

`app/db/models.py` is not part of the sources; the row shapes below follow
the spec data model (section 3) and the columns used by the code.
-/

/-- Modelled from the spec: a row of the Source table (`app/db/models.py` is
absent from the sources; fields follow spec section 3 and the columns the
services read and write). -/
structure SourceRow where
  id : Nat
  source_id : String
  source_type : String
  title : String := ""
  authors : Option String := none
  publication_year : Option Nat := none
  content : String := ""
deriving DecidableEq

/-- Modelled from the spec: a row of the Triplet table.  Context sentences
are stored JSON-serialized in the code; the serialization is injective on
lists of strings, so the row carries the list itself. -/
structure TripletRow where
  id : Nat
  subject : String
  action : String
  object : String
  relation : String
  source_id : Nat
  context_sentences : List String := []
  schema_valid : Bool := false
  status : String := "pending"
deriving DecidableEq

/-- Modelled from the spec: a row of the MCQRecord table (options stored as
a serialized list in the code). -/
structure MCQRow where
  id : Nat
  stem : String := ""
  question : String := ""
  options : List String := []
  correct_option : Nat := 0
  source_id : Nat
  triplet_id : Option Nat := none
  visual_prompt : Option String := none
  visual_triplet : Option String := none
  status : String := "pending"
deriving DecidableEq

/-- Modelled from the spec: a PendingSource queue marker with its insertion
time (used for newest-first ordering). -/
structure PendingRow where
  source_id : Nat
  created_at : Nat
deriving DecidableEq

/-- The database: one list per table, plus autoincrement counters and a
clock supplying `created_at` stamps.  SQLAlchemy `first()` is `List.find?`,
an insert appends, an in-place row update maps over the row id. -/
structure KB where
  sources : List SourceRow := []
  triplets : List TripletRow := []
  mcqs : List MCQRow := []
  pending : List PendingRow := []
  nextSourceId : Nat := 1
  nextTripletId : Nat := 1
  nextMcqId : Nat := 1
  clock : Nat := 0
deriving DecidableEq

/-- The 4-tuple lookup used by kb_service.upsert_triplet. -/
def keyMatch (s a o : String) (sid : Nat) (t : TripletRow) : Bool :=
  t.subject == s && t.action == a && t.object == o && t.source_id == sid

/-- Embedding of kb_service.upsert_triplet: look up the (subject, action,
object, source) 4-tuple; on a hit overwrite the context sentences when the
supplied list is non-empty and the validity flag always, leaving status
untouched; on a miss insert a new row with status pending. -/
def upsert_triplet (db : KB) (subject action object relation : String)
    (source_id : Nat) (context_sentences : List String) (schema_valid : Bool) :
    KB × TripletRow :=
  match db.triplets.find? (keyMatch subject action object source_id) with
  | some existing =>
    let updated : TripletRow :=
      { existing with
        context_sentences :=
          if context_sentences.isEmpty then existing.context_sentences
          else context_sentences
        schema_valid := schema_valid }
    ({ db with
        triplets := db.triplets.map fun t => if t.id == existing.id then updated else t },
     updated)
  | none =>
    let t : TripletRow :=
      { id := db.nextTripletId, subject := subject, action := action,
        object := object, relation := relation, source_id := source_id,
        context_sentences := context_sentences, schema_valid := schema_valid,
        status := "pending" }
    ({ db with triplets := db.triplets ++ [t], nextTripletId := db.nextTripletId + 1 }, t)

/-- Embedding of gradio_app._ensure_pending_source: enqueue if absent. -/
def ensure_pending (db : KB) (sid : Nat) : KB :=
  if db.pending.any (fun p => p.source_id == sid) then db
  else { db with pending := db.pending ++ [⟨sid, db.clock⟩], clock := db.clock + 1 }

/-- Embedding of gradio_app._remove_pending_source. -/
def remove_pending (db : KB) (sid : Nat) : KB :=
  { db with pending := db.pending.filter fun p => !(p.source_id == sid) }

/-- Embedding of gradio_app._clear_pending_sources. -/
def clear_pending (db : KB) : KB := { db with pending := [] }

/-- Descending insertion by creation time (newest first). -/
def insertDesc (p : PendingRow) : List PendingRow → List PendingRow
  | [] => [p]
  | q :: qs => if q.created_at ≤ p.created_at then p :: q :: qs else q :: insertDesc p qs

/-- The `order_by(created_at.desc())` view of the pending queue. -/
def sortPendingDesc (l : List PendingRow) : List PendingRow := l.foldr insertDesc []

/-- Ceiling division on naturals, the value of `math.ceil(a / b)`. -/
def ceilDivNat (a b : Nat) : Nat := (a + b - 1) / b

/-- The `total_pages` computed by gradio_app._list_pending_sources. -/
def pending_total_pages (db : KB) (page_size : Nat) : Nat :=
  if db.pending.length = 0 then 1 else max 1 (ceilDivNat db.pending.length page_size)

/-- The clamped page `max(1, min(page, total_pages))` of
gradio_app._list_pending_sources. -/
def pending_clamped_page (db : KB) (page : Int) (page_size : Nat) : Nat :=
  (max 1 (min page (pending_total_pages db page_size : Int))).toNat

/-- Embedding of gradio_app._list_pending_sources: newest-first entries of
the clamped page together with the total page count. -/
def list_pending_sources (db : KB) (page : Int) (page_size : Nat) :
    List PendingRow × Nat :=
  let total_pages := pending_total_pages db page_size
  let p := pending_clamped_page db page page_size
  (((sortPendingDesc db.pending).drop ((p - 1) * page_size)).take page_size, total_pages)

/-!
## Source registration (app/services/ingestion_service.py)
-/

/-- The bibliographic fields handed to register_pubmed_source. -/
structure ArticleData where
  pubmed_id : String
  title : Option String := none
  authors : Option String := none
  year : Option String := none
  abstract : Option String := none
deriving DecidableEq

/-- Embedding of ingestion_service.register_pubmed_source.  The stored year
is `int(year)` when `article_data.get("year", "Unknown").isdigit()` holds
and `None` otherwise. -/
def register_pubmed_source (a : ArticleData) (db : KB) : KB × SourceRow :=
  let sid := "PMID:" ++ a.pubmed_id
  match db.sources.find? (fun s => s.source_id == sid) with
  | some existing => (db, existing)
  | none =>
    let yearVal : Option Nat :=
      if pyIsDigit (a.year.getD "Unknown") then a.year.map pyIntOfDigits else none
    let row : SourceRow :=
      { id := db.nextSourceId, source_id := sid, source_type := "pubmed",
        title := a.title.getD "", authors := a.authors,
        publication_year := yearVal, content := a.abstract.getD "" }
    ({ db with sources := db.sources ++ [row], nextSourceId := db.nextSourceId + 1 }, row)

/-- Embedding of ingestion_service.register_pdf_source.  `hash8` stands for
the opaque digest `md5(filename)[:8]` and `extract` for the outcome of
`extract_pdf_text(pdf_bytes)` on the uploaded bytes: `Except.error` when
pypdf raises (wrapped into a ValueError by extract_pdf_text), `Except.ok
text` otherwise.  extract_pdf_text strips the concatenated page text but
never rejects empty text.  Extraction runs first; the existing-source check
only happens afterwards. -/
def register_pdf_source (hash8 : String → String) (extract : Except String String)
    (filename : String) (db : KB) : Except String (KB × SourceRow) :=
  match extract with
  | .error e => .error ("Failed to extract PDF text: " ++ e)
  | .ok content =>
    let sid := "pdf_" ++ hash8 filename
    match db.sources.find? (fun s => s.source_id == sid) with
    | some existing => .ok (db, existing)
    | none =>
      let row : SourceRow :=
        { id := db.nextSourceId, source_id := sid, source_type := "pdf",
          title := filename, content := content }
      .ok ({ db with sources := db.sources ++ [row], nextSourceId := db.nextSourceId + 1 },
           row)

/-!
## Bulk extraction ingestion (gradio_app._store_triplets_with_auto_accept)
-/

/-- A Python exception escaping a handler. -/
inductive PyError where
  | typeError (msg : String)
deriving DecidableEq

/-- A raw triplet dict coming back from the extraction call; `none` models a
missing key (the code reads each field with `.get(...) or ""`). -/
structure ExtractedTriplet where
  subject : Option String := none
  action : Option String := none
  object : Option String := none
  relation : Option String := none
  schema_valid : Bool := false
  context_sentences : List String := []
deriving DecidableEq

/-- The aggregate of gradio_app.TripletAutoProcessResult. -/
structure AutoResult where
  accepted : List TripletRow := []
  pending : List TripletRow := []
  skipped_duplicates : Nat := 0
  errors : List String := []
deriving DecidableEq

/-- Embedding of gradio_app._normalize_context_sentences restricted to the
list-of-strings payloads the claims exercise: strip every entry and keep the
non-empty ones. -/
def normalize_context_sentences (value : List String) : List String :=
  (value.map pyStrip).filter fun s => !(s == "")

/-- The call gradio_app makes into the triplet store:
`upsert_triplet(db=..., ..., schema_valid=..., status=...)`.
kb_service.upsert_triplet has no `status` parameter, so Python rejects the
call with a TypeError before the function body runs. -/
def upsert_triplet_status_call (db : KB)
    (subject action object relation : String) (source_id : Nat)
    (context_sentences : List String) (schema_valid : Bool) (status : String) :
    Except PyError (KB × TripletRow) :=
  .error (.typeError "upsert_triplet got an unexpected keyword argument status")

/-- The per-triplet loop of gradio_app._store_triplets_with_auto_accept:
skip incomplete triplets, count same-source 5-tuple duplicates, compute the
auto-accept status, then call upsert_triplet with the extra status keyword
(the ok branch mirrors the intended continuation of the source). -/
def storeAux (src : SourceRow) :
    KB → AutoResult → List ExtractedTriplet → Except PyError (KB × AutoResult)
  | db, acc, [] => .ok (db, acc)
  | db, acc, td :: rest =>
    let subject := pyStrip (td.subject.getD "")
    let action := pyStrip (td.action.getD "")
    let obj := pyStrip (td.object.getD "")
    let relation := pyStrip (td.relation.getD "")
    if subject == "" || action == "" || obj == "" || relation == "" then
      storeAux src db
        { acc with errors := acc.errors ++ ["Incomplete triplet fields encountered."] } rest
    else if (db.triplets.find? fun t =>
        t.subject == subject && t.action == action && t.object == obj &&
        t.relation == relation && t.source_id == src.id).isSome then
      storeAux src db { acc with skipped_duplicates := acc.skipped_duplicates + 1 } rest
    else
      let accepted_match := (db.triplets.find? fun t =>
        t.subject == subject && t.action == action && t.object == obj &&
        t.relation == relation && t.status == "accepted").isSome
      let schema_valid := td.schema_valid
      let status := if schema_valid || accepted_match then "accepted" else "pending"
      match upsert_triplet_status_call db subject action obj relation src.id
          (normalize_context_sentences td.context_sentences) schema_valid status with
      | .error e => .error e
      | .ok (db2, triplet) =>
        if status == "accepted" then
          storeAux src db2 { acc with accepted := acc.accepted ++ [triplet] } rest
        else
          storeAux src db2 { acc with pending := acc.pending ++ [triplet] } rest

/-- Embedding of gradio_app._store_triplets_with_auto_accept. -/
def store_triplets_with_auto_accept (db : KB) (src : SourceRow)
    (tds : List ExtractedTriplet) : Except PyError (KB × AutoResult) :=
  storeAux src db {} tds

/-!
## Automated MCQ generation (gradio_app._auto_generate_mcqs_for_triplets)
-/

/-- The normalized payload of one successful external MCQ-generation call. -/
structure GenPayload where
  stem : String := ""
  question : String := ""
  options : List String := []
  correct_option : Nat := 0
  visual_prompt : Option String := none
  visual_triplet : Option String := none
deriving DecidableEq

/-- One iteration of gradio_app._auto_generate_mcqs_for_triplets.  `gen` is
the external generation call; `none` covers a raised exception, a payload
whose mcq_draft is not a dict, or missing options. -/
def auto_generate_step (gen : TripletRow → Option GenPayload) (src : SourceRow)
    (db : KB) (t : TripletRow) : KB :=
  if (db.mcqs.find? fun m => m.triplet_id == some t.id).isSome then db
  else
    match gen t with
    | none => db
    | some p =>
      if p.options.length != 5 then db
      else
        let mcq : MCQRow :=
          { id := db.nextMcqId, stem := p.stem, question := p.question,
            options := p.options, correct_option := p.correct_option,
            source_id := src.id, triplet_id := some t.id,
            visual_prompt := p.visual_prompt, visual_triplet := p.visual_triplet,
            status := "pending" }
        { db with mcqs := db.mcqs ++ [mcq], nextMcqId := db.nextMcqId + 1 }

/-- Embedding of gradio_app._auto_generate_mcqs_for_triplets (state part;
the generated counter and id list are not needed by the claims). -/
def auto_generate_mcqs (db : KB) (triplets : List TripletRow) (src : SourceRow)
    (gen : TripletRow → Option GenPayload) : KB :=
  triplets.foldl (auto_generate_step gen src) db

/-- Embedding of gradio_app.handle_generate_mcqs_for_article: generate for
every accepted triplet of the article. -/
def handle_generate_for_article (db : KB) (source_db_id : Nat)
    (gen : TripletRow → Option GenPayload) : KB :=
  match db.sources.find? (fun s => s.id == source_db_id) with
  | none => db
  | some src =>
    let accepted := db.triplets.filter fun t =>
      t.source_id == src.id && t.status == "accepted"
    if accepted.isEmpty then db else auto_generate_mcqs db accepted src gen

/-!
## Draft cache and acceptance (gradio_app.handle_accept_mcq)
-/

/-- The mcq part of a cached draft. -/
structure MCQDraft where
  stem : String := ""
  question : String := ""
  options : List String := []
  correct_option : Nat := 0
deriving DecidableEq

/-- A triplet dict inside a cached draft; the code defaults a missing
relation to INDICATES and the other fields to the empty string. -/
structure DraftTriplet where
  subject : String := ""
  action : String := ""
  object : String := ""
  relation : String := "INDICATES"
  context_sentences : List String := []
deriving DecidableEq

/-- One entry of gradio_app.pending_mcq_cache. -/
structure Draft where
  mcq : MCQDraft := {}
  visual : Option String := none
  triplets : List DraftTriplet := []
  timestamp : Nat := 0
deriving DecidableEq

/-- The whole UI process state: database plus the in-memory draft cache
keyed by source db id. -/
structure AppState where
  kb : KB := {}
  cache : List (Nat × Draft) := []
deriving DecidableEq

/-- Lookup in the draft cache. -/
def cacheGet (cache : List (Nat × Draft)) (sid : Nat) : Option Draft :=
  (cache.find? fun e => e.1 == sid).map fun e => e.2

/-- `pending_mcq_cache.pop(source_id, None)`. -/
def cachePop (cache : List (Nat × Draft)) (sid : Nat) : List (Nat × Draft) :=
  cache.filter fun e => !(e.1 == sid)

/-- The triplet-persisting loop of handle_accept_mcq: each draft triplet is
sent to upsert_triplet with schema_valid=True and the extra status keyword
(which Python rejects); the first stored triplet becomes the primary link. -/
def acceptTriplets (source : SourceRow) :
    KB → Option Nat → List DraftTriplet → Except PyError (KB × Option Nat)
  | db, primary, [] => .ok (db, primary)
  | db, primary, td :: rest =>
    match upsert_triplet_status_call db (pyStrip td.subject) (pyStrip td.action)
        (pyStrip td.object) (pyStrip td.relation) source.id
        (normalize_context_sentences td.context_sentences) true "accepted" with
    | .error e => .error e
    | .ok (db2, stored) =>
      acceptTriplets source db2 (if primary.isNone then some stored.id else primary) rest

/-- Set the visual prompt of a stored MCQ row. -/
def setMcqVisual (db : KB) (mid : Nat) (vp : String) : KB :=
  { db with mcqs := db.mcqs.map fun m =>
      if m.id == mid then { m with visual_prompt := some vp } else m }

/-- Embedding of gradio_app.handle_accept_mcq: persist the cached draft for
a source, link the first stored triplet, remove the draft and the pending
marker, then write a non-empty override visual prompt. -/
def handle_accept_mcq (st : AppState) (source_id : Nat) (visual_prompt : String) :
    Except PyError (AppState × String × Option Nat) :=
  match cacheGet st.cache source_id with
  | none => .ok (st, "Generate an MCQ before accepting.", none)
  | some entry =>
    match st.kb.sources.find? (fun s => s.id == source_id) with
    | none => .ok (st, "Article not found.", none)
    | some source =>
      let options := entry.mcq.options
      if options.length != 5 then
        .ok (st, "MCQ draft must contain exactly 5 options before acceptance.", none)
      else
        match acceptTriplets source st.kb none entry.triplets with
        | .error e => .error e
        | .ok (db1, primary) =>
          let mcq : MCQRow :=
            { id := db1.nextMcqId, stem := entry.mcq.stem,
              question := entry.mcq.question, options := options,
              correct_option := entry.mcq.correct_option,
              source_id := source.id, triplet_id := primary,
              visual_prompt := none, status := "pending" }
          let db2 := { db1 with mcqs := db1.mcqs ++ [mcq], nextMcqId := db1.nextMcqId + 1 }
          let cache2 := cachePop st.cache source_id
          let db3 := remove_pending db2 source_id
          let db4 :=
            if pyStrip visual_prompt == "" then db3
            else setMcqVisual db3 mcq.id (pyStrip visual_prompt)
          .ok ({ kb := db4, cache := cache2 },
               "MCQ accepted and stored with ID " ++ toString mcq.id ++ ".", some mcq.id)

/-- The operations of gradio_app that read or write the PendingSource
table: enqueueing at registration, automated generation, draft acceptance
(the only caller of _remove_pending_source) and the explicit queue clear. -/
inductive Op where
  | ensurePending (sourceId : Nat)
  | autoGenerate (sourceId : Nat) (gen : TripletRow → Option GenPayload)
  | acceptDraft (sourceId : Nat) (visualPrompt : String)
  | clearPending

/-- Effect of one operation on the process state; a Python exception leaves
the committed state as it was. -/
def step (st : AppState) : Op → AppState
  | .ensurePending sid => { st with kb := ensure_pending st.kb sid }
  | .autoGenerate sid gen => { st with kb := handle_generate_for_article st.kb sid gen }
  | .acceptDraft sid vp =>
    match handle_accept_mcq st sid vp with
    | .ok (st2, _, _) => st2
    | .error _ => st
  | .clearPending => { st with kb := clear_pending st.kb }

/-!
## Provenance verification (app/tools/provenance_tools.py)
-/

/-- The dict returned by verify_context_sentences. -/
structure VerifyOutcome where
  all_verified : Bool
  results : List (List Char × Bool)
  verified_count : Nat
  total_count : Nat
deriving DecidableEq

/-- The per-sentence check of provenance_tools.verify_context_sentences:
`sentence.lower().strip() in source_text.lower()`, retried after both sides
pass through `" ".join(x.split())`. -/
def sentence_verified (sentence source_text : List Char) : Bool :=
  let source_lower := lowerL source_text
  let sentence_lower := stripL (lowerL sentence)
  decide (sentence_lower <:+: source_lower) ||
    decide (pynormalize sentence_lower <:+: pynormalize source_lower)

/-- Embedding of provenance_tools.verify_context_sentences. -/
def verify_context_sentences (cs : List (List Char)) (source_text : List Char) :
    VerifyOutcome :=
  let results := cs.map fun s => (s, sentence_verified s source_text)
  { all_verified := results.all fun r => r.2
    results := results
    verified_count := (results.filter fun r => r.2).length
    total_count := results.length }

/-- The per-sentence acceptance criterion exactly as the specification words
it: a case-insensitive substring match, or, failing that, a substring match
after both sides have every whitespace run collapsed to a single space. -/
def spec_sentence_verified (sentence source_text : List Char) : Bool :=
  decide (lowerL sentence <:+: lowerL source_text) ||
    decide (pynormalize (lowerL sentence) <:+: pynormalize (lowerL source_text))

/-!
## Concrete fixtures used by closed theorems and witnesses
-/

/-- An empty database. -/
def kbE : KB := {}

/-- A registered bibliographic source. -/
def src1 : SourceRow :=
  { id := 1, source_id := "PMID:111", source_type := "pubmed", title := "T",
    content := "Metformin treats T2D." }

/-- A database holding `src1`, queued for review. -/
def kb1 : KB :=
  { sources := [src1], pending := [⟨1, 0⟩], nextSourceId := 2, clock := 1 }

/-- A complete, schema-valid extracted triplet. -/
def extracted1 : ExtractedTriplet :=
  { subject := some "Metformin", action := some "treats", object := some "T2D",
    relation := some "TREATS", schema_valid := true,
    context_sentences := ["Metformin treats T2D."] }

/-- A five-option draft carrying one triplet. -/
def draftOk : Draft :=
  { mcq := { stem := "S", question := "Q", options := ["a", "b", "c", "d", "e"],
             correct_option := 0 },
    visual := some "V",
    triplets := [{ subject := "Metformin", action := "treats", object := "T2D",
                   relation := "TREATS",
                   context_sentences := ["Metformin treats T2D."] }] }

/-- The same draft with only four options. -/
def draftBad : Draft :=
  { draftOk with mcq := { stem := "S", question := "Q",
                          options := ["a", "b", "c", "d"], correct_option := 0 } }

/-- Process state with a live five-option draft for source 1. -/
def stOk : AppState := { kb := kb1, cache := [(1, draftOk)] }

/-- Process state with a live four-option draft for source 1. -/
def stBad : AppState := { kb := kb1, cache := [(1, draftBad)] }

/-!
## C1 and C2: the auto-accept and draft-accept paths crash on upsert
-/

/-- C1 (code_bug evaluation): ingesting one complete, schema-valid,
non-duplicate triplet through the bulk extraction path raises a TypeError at
the upsert_triplet call (kb_service.upsert_triplet has no `status`
parameter while gradio_app passes one), so no triplet is stored with any
status, against the claimed accepted/pending classification. -/
theorem C1_autoclassify_raises :
    store_triplets_with_auto_accept kb1 src1 [extracted1] =
      .error (.typeError "upsert_triplet got an unexpected keyword argument status") ∧
    (store_triplets_with_auto_accept kb1 src1 [] = .ok (kb1, {}) ∧ kb1.triplets = []) := by
  exact ⟨rfl, rfl, rfl⟩

/-- C2 (code_bug evaluation): with a live five-option draft holding one
triplet, handle_accept_mcq raises the same TypeError instead of persisting
the triplet and MCQRecord, while the four-option draft is correctly refused
with no state change. -/
theorem C2_acceptdraft_raises :
    handle_accept_mcq stOk 1 "" =
      .error (.typeError "upsert_triplet got an unexpected keyword argument status") ∧
    handle_accept_mcq stBad 1 "" =
      .ok (stBad, "MCQ draft must contain exactly 5 options before acceptance.", none) := by
  exact ⟨rfl, rfl⟩

/-!
## C6: publication year parsing
-/

/-- A bibliographic record whose year field is a 4-digit prefix plus month. -/
def articleJan : ArticleData :=
  { pubmed_id := "111", title := some "T", year := some "2024 Jan", abstract := some "A" }

/-- A bibliographic record whose year field is all digits. -/
def articleDigits : ArticleData :=
  { pubmed_id := "222", title := some "U", year := some "2024", abstract := some "B" }

/-- C6 counterexample: the year field `2024 Jan` stores `None`, not 2024 —
`register_pubmed_source` only parses a year when the whole field is digits;
there is no 4-digit-prefix parsing in the registration path. -/
theorem C6_year_prefix_cex :
    ((register_pubmed_source articleJan kbE).2).publication_year = none ∧
    ((register_pubmed_source articleJan kbE).2).publication_year ≠ some 2024 := by
  exact ⟨rfl, by decide⟩

/-- C6 (amended): on a fresh registration the stored publication year is
`int(year)` exactly when the supplied year field consists entirely of
digits; any other year field — including one with a 4-digit prefix such as
`2024 Jan` — and a missing year field store null. -/
theorem C6_year_digits (a : ArticleData) (db : KB)
    (h : db.sources.find? (fun s => s.source_id == "PMID:" ++ a.pubmed_id) = none) :
    (∀ y, a.year = some y → pyIsDigit y = true →
      ((register_pubmed_source a db).2).publication_year = some (pyIntOfDigits y)) ∧
    (∀ y, a.year = some y → pyIsDigit y = false →
      ((register_pubmed_source a db).2).publication_year = none) ∧
    (a.year = none → ((register_pubmed_source a db).2).publication_year = none) := by
  refine ⟨?_, ?_, ?_⟩
  · intro y hy hd
    simp [register_pubmed_source, h, hy, hd, Option.getD]
  · intro y hy hd
    simp [register_pubmed_source, h, hy, hd, Option.getD]
  · intro hy
    have hu : pyIsDigit "Unknown" = false := by decide
    simp [register_pubmed_source, h, hy, hu, Option.getD]

/-- Witness for C6_year_digits at a concrete all-digit year. -/
theorem C6_year_digits_w :
    ((register_pubmed_source articleDigits kbE).2).publication_year = some 2024 := by
  have h := (C6_year_digits articleDigits kbE rfl).1 "2024" rfl (by decide)
  rw [h]; decide

/-!
## C7 and C10: PDF registration and extraction ordering
-/

/-- A stand-in for the md5-derived digest of a filename. -/
def h8c : String → String := fun _ => "abcd1234"

/-- Observe the number of Source rows in a registration outcome. -/
def okSourceCount : Except String (KB × SourceRow) → Option Nat
  | .ok (db, _) => some db.sources.length
  | .error _ => none

/-- C7 counterexample: when extraction succeeds with empty text (a readable
PDF with no extractable characters), register_pdf_source does not fail — it
creates a Source row with empty content, against the claimed
extraction-error rejection of unusable content. -/
theorem C7_empty_text_cex :
    okSourceCount (register_pdf_source h8c (.ok "") "doc.pdf" kbE) = some 1 := rfl

/-- C7 (amended): register_pdf_source fails with the extraction error
exactly when text extraction of the uploaded bytes raises, and in that case
no Source row is created; an empty extracted text is accepted and stored as
a Source row with empty content. -/
theorem C7_extraction_failure (hash8 : String → String) (f : String) (db : KB)
    (e content : String) :
    register_pdf_source hash8 (.error e) f db =
      .error ("Failed to extract PDF text: " ++ e) ∧
    (db.sources.find? (fun s => s.source_id == "pdf_" ++ hash8 f) = none →
      ∃ row, register_pdf_source hash8 (.ok content) f db =
          .ok ({ db with
                   sources := db.sources ++ [row]
                   nextSourceId := db.nextSourceId + 1 }, row) ∧
        row.content = content ∧ row.source_type = "pdf") := by
  constructor
  · rfl
  · intro h
    refine ⟨{ id := db.nextSourceId, source_id := "pdf_" ++ hash8 f,
              source_type := "pdf", title := f, content := content }, ?_, rfl, rfl⟩
    simp [register_pdf_source, h]

/-- Witness for C7_extraction_failure at concrete inputs. -/
theorem C7_extraction_failure_w :
    register_pdf_source h8c (.error "bad xref") "doc.pdf" kbE =
      .error ("Failed to extract PDF text: " ++ "bad xref") ∧
    (∃ row, register_pdf_source h8c (.ok "text") "doc.pdf" kbE =
        .ok ({ kbE with
                 sources := kbE.sources ++ [row]
                 nextSourceId := kbE.nextSourceId + 1 }, row) ∧
      row.content = "text" ∧ row.source_type = "pdf") :=
  ⟨(C7_extraction_failure h8c "doc.pdf" kbE "bad xref" "text").1,
   (C7_extraction_failure h8c "doc.pdf" kbE "bad xref" "text").2 rfl⟩

/-- A database already holding the PDF source that `h8c` maps `doc.pdf`
to. -/
def kbPdf : KB :=
  { sources := [{ id := 1, source_id := "pdf_abcd1234", source_type := "pdf",
                  title := "doc.pdf", content := "old" }], nextSourceId := 2 }

/-- C10: extraction runs before the existence check, so re-registering an
already-known filename with unreadable bytes still fails with the
extraction error, and the idempotent-return path is reached only when
extraction succeeded. -/
theorem C10_extract_before_lookup (hash8 : String → String) (f : String) (db : KB)
    (e : String) (ex : SourceRow) (extract : Except String String)
    (res : KB × SourceRow) :
    (db.sources.find? (fun s => s.source_id == "pdf_" ++ hash8 f) = some ex →
      register_pdf_source hash8 (.error e) f db =
        .error ("Failed to extract PDF text: " ++ e)) ∧
    (register_pdf_source hash8 extract f db = .ok res → ∃ c, extract = .ok c) := by
  constructor
  · intro _; rfl
  · intro h
    cases extract with
    | error e2 => exact absurd h (by simp [register_pdf_source])
    | ok c => exact ⟨c, rfl⟩

/-- Witness for C10_extract_before_lookup: the existing row makes the
existence check a hit, yet unreadable bytes still fail. -/
theorem C10_extract_before_lookup_w :
    register_pdf_source h8c (.error "bad xref") "doc.pdf" kbPdf =
      .error ("Failed to extract PDF text: " ++ "bad xref") ∧
    (∃ c, (Except.ok "old" : Except String String) = .ok c) :=
  ⟨(C10_extract_before_lookup h8c "doc.pdf" kbPdf "bad xref"
      { id := 1, source_id := "pdf_abcd1234", source_type := "pdf",
        title := "doc.pdf", content := "old" } (.ok "old")
      (kbPdf, { id := 1, source_id := "pdf_abcd1234", source_type := "pdf",
                title := "doc.pdf", content := "old" })).1 rfl,
   (C10_extract_before_lookup h8c "doc.pdf" kbPdf "bad xref"
      { id := 1, source_id := "pdf_abcd1234", source_type := "pdf",
        title := "doc.pdf", content := "old" } (.ok "old")
      (kbPdf, { id := 1, source_id := "pdf_abcd1234", source_type := "pdf",
                title := "doc.pdf", content := "old" })).2 rfl⟩

/-!
## C8: idempotent automated generation
-/

/-- Running the generation loop over one triplet is one step. -/
theorem auto_generate_mcqs_single (db : KB) (src : SourceRow)
    (gen : TripletRow → Option GenPayload) (t : TripletRow) :
    auto_generate_mcqs db [t] src gen = auto_generate_step gen src db t := rfl

/-- C8: automated MCQ generation is idempotent per (source, triplet) pair:
an existing record referencing the triplet makes the step a no-op; a fresh
generation appends exactly one record with five options, status pending and
the pair links; running the loop twice for the same pair therefore leaves
exactly one record for that pair. -/
theorem C8_generation_idempotent (db : KB) (src : SourceRow)
    (gen : TripletRow → Option GenPayload) (t : TripletRow) (p : GenPayload) :
    ((db.mcqs.find? fun m => m.triplet_id == some t.id).isSome = true →
      auto_generate_mcqs db [t] src gen = db) ∧
    ((db.mcqs.find? fun m => m.triplet_id == some t.id) = none → gen t = some p →
      p.options.length = 5 →
      ∃ row, (auto_generate_mcqs db [t] src gen).mcqs = db.mcqs ++ [row] ∧
        row.options.length = 5 ∧ row.status = "pending" ∧
        row.triplet_id = some t.id ∧ row.source_id = src.id) ∧
    ((db.mcqs.find? fun m => m.triplet_id == some t.id) = none → gen t = some p →
      p.options.length = 5 →
      ((auto_generate_mcqs (auto_generate_mcqs db [t] src gen) [t] src gen).mcqs.countP
          fun m => m.triplet_id == some t.id && m.source_id == src.id) = 1) := by
  have hlen5 : (5 != 5) = false := by decide
  refine ⟨?_, ?_, ?_⟩
  · intro h
    simp [auto_generate_mcqs, auto_generate_step, h]
  · intro hnone hgen hopt
    refine ⟨{ id := db.nextMcqId
              stem := p.stem
              question := p.question
              options := p.options
              correct_option := p.correct_option
              source_id := src.id
              triplet_id := some t.id
              visual_prompt := p.visual_prompt
              visual_triplet := p.visual_triplet
              status := "pending" }, ?_, hopt, rfl, rfl, rfl⟩
    simp [auto_generate_mcqs, auto_generate_step, hnone, hgen, hopt]
  · intro hnone hgen hopt
    have hstep1 : (auto_generate_mcqs db [t] src gen).mcqs =
        db.mcqs ++ [{ id := db.nextMcqId
                      stem := p.stem
                      question := p.question
                      options := p.options
                      correct_option := p.correct_option
                      source_id := src.id
                      triplet_id := some t.id
                      visual_prompt := p.visual_prompt
                      visual_triplet := p.visual_triplet
                      status := "pending" }] := by
      simp [auto_generate_mcqs, auto_generate_step, hnone, hgen, hopt]
    have hfound : ((auto_generate_mcqs db [t] src gen).mcqs.find? fun m =>
        m.triplet_id == some t.id).isSome = true := by
      rw [hstep1]
      simp [List.find?_append, hnone]
    have hstep2 : auto_generate_mcqs (auto_generate_mcqs db [t] src gen) [t] src gen =
        auto_generate_mcqs db [t] src gen := by
      rw [auto_generate_mcqs_single (auto_generate_mcqs db [t] src gen)]
      simp [auto_generate_step, hfound]
    rw [hstep2, hstep1]
    have hzero : db.mcqs.countP
        (fun m => m.triplet_id == some t.id && m.source_id == src.id) = 0 := by
      rw [List.countP_eq_zero]
      intro m hm
      have := List.find?_eq_none.mp hnone m hm
      simp only [Bool.and_eq_true]
      exact fun hcontra => this hcontra.1
    simp [List.countP_append, hzero]

/-- A payload with five options, used to instantiate C8. -/
def gen5 : TripletRow → Option GenPayload := fun _ =>
  some { stem := "S", question := "Q", options := ["a", "b", "c", "d", "e"] }

/-- A stored accepted triplet of source 1. -/
def trip1 : TripletRow :=
  { id := 1, subject := "Metformin", action := "treats", object := "T2D",
    relation := "TREATS", source_id := 1, status := "accepted" }

/-- Witness for C8_generation_idempotent at a concrete store and payload. -/
theorem C8_generation_idempotent_w :
    ((auto_generate_mcqs (auto_generate_mcqs kb1 [trip1] src1 gen5) [trip1] src1
        gen5).mcqs.countP
      fun m => m.triplet_id == some trip1.id && m.source_id == src1.id) = 1 :=
  (C8_generation_idempotent kb1 src1 gen5 trip1
      { stem := "S", question := "Q", options := ["a", "b", "c", "d", "e"] }).2.2
    rfl rfl (by decide)

/-!
## C9: the pending queue is untouched by automated generation
-/

/-- One generation step never touches the pending queue. -/
theorem auto_generate_step_pending (gen : TripletRow → Option GenPayload)
    (src : SourceRow) (db : KB) (t : TripletRow) :
    (auto_generate_step gen src db t).pending = db.pending := by
  unfold auto_generate_step
  split
  · rfl
  · split
    · rfl
    · split
      · rfl
      · rfl

/-- The whole generation loop never touches the pending queue. -/
theorem auto_generate_mcqs_pending (triplets : List TripletRow) (db : KB)
    (src : SourceRow) (gen : TripletRow → Option GenPayload) :
    (auto_generate_mcqs db triplets src gen).pending = db.pending := by
  induction triplets generalizing db with
  | nil => rfl
  | cons t ts ih =>
    rw [show auto_generate_mcqs db (t :: ts) src gen =
        auto_generate_mcqs (auto_generate_step gen src db t) ts src gen from rfl]
    rw [ih (auto_generate_step gen src db t)]
    exact auto_generate_step_pending gen src db t

/-- The per-article generation handler never touches the pending queue. -/
theorem handle_generate_for_article_pending (db : KB) (sid : Nat)
    (gen : TripletRow → Option GenPayload) :
    (handle_generate_for_article db sid gen).pending = db.pending := by
  unfold handle_generate_for_article
  cases hf : db.sources.find? fun s => s.id == sid with
  | none => rfl
  | some src =>
    dsimp only
    split
    · rfl
    · exact auto_generate_mcqs_pending _ _ _ _

/-- C9: a pending marker can disappear across a step only through explicit
draft acceptance or an explicit clear of the queue, and automated MCQ
generation leaves the pending queue exactly as it was. -/
theorem C9_pending_stability :
    (∀ (st : AppState) (op : Op) (sid : Nat),
      st.kb.pending.any (fun p => p.source_id == sid) = true →
      (step st op).kb.pending.any (fun p => p.source_id == sid) = false →
      (∃ a b, op = Op.acceptDraft a b) ∨ op = Op.clearPending) ∧
    (∀ (st : AppState) (sid : Nat) (gen : TripletRow → Option GenPayload),
      (step st (Op.autoGenerate sid gen)).kb.pending = st.kb.pending) := by
  constructor
  · intro st op sid h1 h2
    cases op with
    | ensurePending s0 =>
      exfalso
      simp only [step, ensure_pending] at h2
      by_cases hmem : st.kb.pending.any (fun p => p.source_id == s0) = true
      · rw [if_pos hmem] at h2
        exact absurd h1 (by simp [h2])
      · rw [if_neg hmem] at h2
        simp only [List.any_append, Bool.or_eq_false_iff] at h2
        exact absurd h1 (by simp [h2.1])
    | autoGenerate s0 gen =>
      exfalso
      simp only [step] at h2
      rw [handle_generate_for_article_pending] at h2
      exact absurd h1 (by simp [h2])
    | acceptDraft a b => exact Or.inl ⟨a, b, rfl⟩
    | clearPending => exact Or.inr rfl
  · intro st sid gen
    simp only [step]
    exact handle_generate_for_article_pending st.kb sid gen

/-- Process state with source 1 pending. -/
def st1 : AppState := { kb := kb1 }

/-- Witness for C9_pending_stability: an explicit clear removes the marker
and the conclusion names the clear operation; automated generation at a
concrete state preserves the queue. -/
theorem C9_pending_stability_w :
    ((∃ a b, Op.clearPending = Op.acceptDraft a b) ∨ Op.clearPending = Op.clearPending) ∧
    (step st1 (Op.autoGenerate 1 fun _ => none)).kb.pending = st1.kb.pending :=
  ⟨C9_pending_stability.1 st1 Op.clearPending 1 rfl rfl,
   C9_pending_stability.2 st1 1 fun _ => none⟩

/-!
## C4: pagination of the pending queue
-/

/-- Membership in a descending insertion. -/
theorem mem_insertDesc (p : PendingRow) (l : List PendingRow) (x : PendingRow) :
    x ∈ insertDesc p l ↔ x = p ∨ x ∈ l := by
  induction l with
  | nil => simp [insertDesc]
  | cons q qs ih =>
    unfold insertDesc
    split
    · simp only [List.mem_cons]
    · simp only [List.mem_cons, ih]
      tauto

/-- Descending insertion preserves the newest-first ordering. -/
theorem insertDesc_pairwise (p : PendingRow) (l : List PendingRow)
    (h : l.Pairwise fun a b => b.created_at ≤ a.created_at) :
    (insertDesc p l).Pairwise fun a b => b.created_at ≤ a.created_at := by
  induction l with
  | nil => simp [insertDesc]
  | cons q qs ih =>
    rcases List.pairwise_cons.mp h with ⟨hq, hqs⟩
    unfold insertDesc
    split
    case isTrue hle =>
      refine List.pairwise_cons.mpr ⟨?_, h⟩
      intro x hx
      rcases List.mem_cons.mp hx with rfl | hx2
      · exact hle
      · exact le_trans (hq x hx2) hle
    case isFalse hgt =>
      refine List.pairwise_cons.mpr ⟨?_, ih hqs⟩
      intro x hx
      rcases (mem_insertDesc p qs x).mp hx with rfl | hx2
      · omega
      · exact hq x hx2

/-- The sorted view of the queue is newest-first. -/
theorem sortPendingDesc_pairwise (l : List PendingRow) :
    (sortPendingDesc l).Pairwise fun a b => b.created_at ≤ a.created_at := by
  induction l with
  | nil => exact List.Pairwise.nil
  | cons p ps ih => exact insertDesc_pairwise p (sortPendingDesc ps) ih

/-- Total pages are always at least one. -/
theorem pending_total_pages_pos (db : KB) (page_size : Nat) :
    1 ≤ pending_total_pages db page_size := by
  unfold pending_total_pages
  split
  · exact le_refl 1
  · exact le_max_left 1 _

/-- C4: list_pending_sources reports max(1, ceil(count / pageSize)) total
pages (1 even for the empty queue), clamps the requested page into
[1, totalPages] (leaving in-range pages unchanged), and returns the clamped
page slice of the newest-first ordering; with 13 entries and page size 6
there are 3 pages and any request beyond page 3 lands on page 3. -/
theorem C4_pagination (db : KB) (page : Int) (page_size : Nat) (hps : 0 < page_size) :
    (pending_total_pages db page_size = max 1 (ceilDivNat db.pending.length page_size)) ∧
    (1 ≤ pending_clamped_page db page page_size) ∧
    (pending_clamped_page db page page_size ≤ pending_total_pages db page_size) ∧
    (1 ≤ page → page ≤ (pending_total_pages db page_size : Int) →
      (pending_clamped_page db page page_size : Int) = page) ∧
    ((list_pending_sources db page page_size).2 = pending_total_pages db page_size) ∧
    ((list_pending_sources db page page_size).1 =
      ((sortPendingDesc db.pending).drop
        ((pending_clamped_page db page page_size - 1) * page_size)).take page_size) ∧
    (((list_pending_sources db page page_size).1).Pairwise
      fun a b => b.created_at ≤ a.created_at) ∧
    (db.pending.length = 0 → pending_total_pages db page_size = 1 ∧
      pending_clamped_page db page page_size = 1 ∧
      (list_pending_sources db page page_size).1 = []) ∧
    (db.pending.length = 13 → page_size = 6 →
      pending_total_pages db page_size = 3 ∧
      (4 ≤ page → pending_clamped_page db page page_size = 3)) := by
  have htp1 : 1 ≤ pending_total_pages db page_size := pending_total_pages_pos db page_size
  refine ⟨?_, ?_, ?_, ?_, rfl, rfl, ?_, ?_, ?_⟩
  · unfold pending_total_pages
    by_cases h : db.pending.length = 0
    · rw [if_pos h, h]
      have hzero : ceilDivNat 0 page_size = 0 := by
        unfold ceilDivNat
        exact Nat.div_eq_of_lt (by omega)
      rw [hzero]
      omega
    · rw [if_neg h]
  · unfold pending_clamped_page
    omega
  · unfold pending_clamped_page
    omega
  · intro h1 h2
    unfold pending_clamped_page
    omega
  · exact (sortPendingDesc_pairwise db.pending).sublist
      ((List.take_sublist _ _).trans (List.drop_sublist _ _))
  · intro h0
    have hemp : db.pending = [] := List.length_eq_zero.mp h0
    have htp : pending_total_pages db page_size = 1 := by
      unfold pending_total_pages
      rw [if_pos h0]
    refine ⟨htp, ?_, ?_⟩
    · unfold pending_clamped_page
      rw [htp]
      omega
    · simp [list_pending_sources, hemp, sortPendingDesc]
  · intro h13 hps6
    have htp : pending_total_pages db page_size = 3 := by
      unfold pending_total_pages ceilDivNat
      rw [h13, hps6]
      decide
    refine ⟨htp, fun h4 => ?_⟩
    unfold pending_clamped_page
    rw [htp]
    omega

/-- A queue of thirteen pending sources. -/
def db13 : KB := { pending := (List.range 13).map fun i => ⟨i + 1, i⟩ }

/-- Witness for C4_pagination: thirteen entries at page size 6 give three
pages, and a request for page 5 clamps to page 3. -/
theorem C4_pagination_w :
    pending_total_pages db13 6 = 3 ∧ pending_clamped_page db13 5 6 = 3 := by
  have h := C4_pagination db13 5 6 (by decide)
  have h2 := h.2.2.2.2.2.2.2.2 rfl rfl
  exact ⟨h2.1, h2.2 (by decide)⟩

/-!
## C3: the upsert contract of the triplet store
-/

/-- Well-formedness of the triplet table: distinct row ids, all below the
autoincrement counter. -/
def KWF (db : KB) : Prop :=
  (db.triplets.map fun t => t.id).Nodup ∧ ∀ t ∈ db.triplets, t.id < db.nextTripletId

/-- A sequence of upsert calls with a fixed (subject, action, object,
source) key; each call supplies context sentences and a validity flag. -/
def run_upserts (db : KB) (s a o r : String) (sid : Nat)
    (calls : List (List String × Bool)) : KB :=
  calls.foldl (fun d c => (upsert_triplet d s a o r sid c.1 c.2).1) db

/-- The context sentences of the most recent call that supplied any. -/
def lastNonEmptyCtx (calls : List (List String × Bool)) : Option (List String) :=
  calls.foldl (fun acc c => if c.1.isEmpty then acc else some c.1) none

/-- The row written back on an upsert hit. -/
def updRow (ex : TripletRow) (cs : List String) (sv : Bool) : TripletRow :=
  { ex with
    context_sentences := if cs.isEmpty then ex.context_sentences else cs
    schema_valid := sv }

/-- The row inserted on an upsert miss. -/
def newRow (db : KB) (s a o r : String) (sid : Nat) (cs : List String)
    (sv : Bool) : TripletRow :=
  { id := db.nextTripletId, subject := s, action := a, object := o, relation := r,
    source_id := sid, context_sentences := cs, schema_valid := sv,
    status := "pending" }

/-- Unfolding of the hit branch of upsert_triplet. -/
theorem upsert_hit_eq (db : KB) (s a o r : String) (sid : Nat) (cs : List String)
    (sv : Bool) (ex : TripletRow)
    (hf : db.triplets.find? (keyMatch s a o sid) = some ex) :
    upsert_triplet db s a o r sid cs sv =
      ({ db with
          triplets := db.triplets.map fun t =>
            if t.id == ex.id then updRow ex cs sv else t },
       updRow ex cs sv) := by
  unfold upsert_triplet updRow
  rw [hf]

/-- Unfolding of the miss branch of upsert_triplet. -/
theorem upsert_miss_eq (db : KB) (s a o r : String) (sid : Nat) (cs : List String)
    (sv : Bool) (hf : db.triplets.find? (keyMatch s a o sid) = none) :
    upsert_triplet db s a o r sid cs sv =
      ({ db with
          triplets := db.triplets ++ [newRow db s a o r sid cs sv]
          nextTripletId := db.nextTripletId + 1 },
       newRow db s a o r sid cs sv) := by
  unfold upsert_triplet newRow
  rw [hf]

/-- The inserted row always matches the key. -/
theorem keyMatch_newRow (db : KB) (s a o r : String) (sid : Nat)
    (cs : List String) (sv : Bool) :
    keyMatch s a o sid (newRow db s a o r sid cs sv) = true := by
  simp [keyMatch, newRow]

/-- The written-back row keeps the key of the row it replaces. -/
theorem keyMatch_updRow (s a o : String) (sid : Nat) (ex : TripletRow)
    (cs : List String) (sv : Bool) :
    keyMatch s a o sid (updRow ex cs sv) = keyMatch s a o sid ex := rfl

/-- Replacing by id after a successful find? leaves the found row (or an
id-sharing earlier row) holding the replacement, so a key search finds the
replacement. -/
theorem find?_map_replace (l : List TripletRow) (ex upd : TripletRow)
    (p : TripletRow → Bool) (hf : l.find? p = some ex) (hkey : p upd = true) :
    (l.map fun t => if t.id == ex.id then upd else t).find? p = some upd := by
  induction l with
  | nil => simp at hf
  | cons t ts ih =>
    by_cases hp : p t = true
    · rw [List.find?_cons_of_pos _ hp] at hf
      injection hf with h
      subst h
      have hupd : (if (t.id == t.id) = true then upd else t) = upd := by simp
      simp only [List.map_cons, hupd]
      rw [List.find?_cons_of_pos _ hkey]
    · have hp2 : ¬ p t := by simpa using hp
      rw [List.find?_cons_of_neg _ hp2] at hf
      simp only [List.map_cons]
      cases hid : t.id == ex.id with
      | true =>
        rw [if_pos rfl, List.find?_cons_of_pos _ hkey]
      | false =>
        rw [if_neg (by decide), List.find?_cons_of_neg _ hp2]
        exact ih hf

/-- Replacing by id is surgical when the ids are distinct. -/
theorem map_replace_split (l1 l2 : List TripletRow) (ex upd : TripletRow)
    (hnd : ((l1 ++ ex :: l2).map fun t => t.id).Nodup) (hid : upd.id = ex.id) :
    ((l1 ++ ex :: l2).map fun t => if t.id == ex.id then upd else t) =
      l1 ++ upd :: l2 := by
  simp only [List.map_append, List.map_cons, List.nodup_append,
    List.nodup_cons] at hnd
  obtain ⟨-, ⟨hne2, -⟩, hdisj⟩ := hnd
  have h1 : ∀ t ∈ l1, t.id ≠ ex.id := by
    intro t ht heq
    exact hdisj (List.mem_map_of_mem _ ht) (by simp [heq])
  have h2 : ∀ t ∈ l2, t.id ≠ ex.id := by
    intro t ht heq
    exact hne2 (by rw [← heq]; exact List.mem_map_of_mem _ ht)
  simp only [List.map_append, List.map_cons]
  have e1 : l1.map (fun t => if t.id == ex.id then upd else t) = l1 := by
    rw [show l1.map (fun t => if t.id == ex.id then upd else t) = l1.map id from ?_,
      List.map_id]
    apply List.map_congr_left
    intro t ht
    simp [h1 t ht]
  have e2 : l2.map (fun t => if t.id == ex.id then upd else t) = l2 := by
    rw [show l2.map (fun t => if t.id == ex.id then upd else t) = l2.map id from ?_,
      List.map_id]
    apply List.map_congr_left
    intro t ht
    simp [h2 t ht]
  rw [e1, e2]
  simp

/-- Facts about an upsert hit on a well-formed store: the table keeps its
length, its status column, its key-match count, and well-formedness. -/
theorem upsert_hit_facts (db : KB) (s a o r : String) (sid : Nat)
    (cs : List String) (sv : Bool) (ex : TripletRow) (hwf : KWF db)
    (hf : db.triplets.find? (keyMatch s a o sid) = some ex) :
    (upsert_triplet db s a o r sid cs sv).1.triplets.length = db.triplets.length ∧
    (upsert_triplet db s a o r sid cs sv).1.triplets.map (fun t => t.status) =
      db.triplets.map (fun t => t.status) ∧
    (upsert_triplet db s a o r sid cs sv).1.triplets.countP (keyMatch s a o sid) =
      db.triplets.countP (keyMatch s a o sid) ∧
    KWF (upsert_triplet db s a o r sid cs sv).1 := by
  obtain ⟨hkey, l1, l2, hsplit, hl1⟩ := List.find?_eq_some.mp hf
  have hedb := upsert_hit_eq db s a o r sid cs sv ex hf
  have hnd : ((l1 ++ ex :: l2).map fun t => t.id).Nodup := by
    rw [← hsplit]; exact hwf.1
  have hmap : (upsert_triplet db s a o r sid cs sv).1.triplets =
      l1 ++ updRow ex cs sv :: l2 := by
    rw [hedb]
    show (db.triplets.map fun t => if t.id == ex.id then updRow ex cs sv else t) =
      l1 ++ updRow ex cs sv :: l2
    rw [hsplit]
    exact map_replace_split l1 l2 ex (updRow ex cs sv) hnd rfl
  have hnext : (upsert_triplet db s a o r sid cs sv).1.nextTripletId =
      db.nextTripletId := by rw [hedb]
  refine ⟨?_, ?_, ?_, ?_, ?_⟩
  · rw [hmap, hsplit]
    simp
  · rw [hmap, hsplit]
    simp only [List.map_append, List.map_cons]
    rfl
  · rw [hmap, hsplit]
    simp only [List.countP_append, List.countP_cons]
    rw [keyMatch_updRow]
  · rw [hmap]
    have : ((l1 ++ updRow ex cs sv :: l2).map fun t => t.id) =
        ((l1 ++ ex :: l2).map fun t => t.id) := by
      simp only [List.map_append, List.map_cons]
      rfl
    rw [this]
    exact hnd
  · rw [hmap, hnext]
    intro t ht
    rw [List.mem_append, List.mem_cons] at ht
    rcases ht with h1 | h2 | h3
    · exact hwf.2 t (by rw [hsplit]; simp [h1])
    · have hexmem : ex ∈ db.triplets := by rw [hsplit]; simp
      rw [h2]
      exact hwf.2 ex hexmem
    · exact hwf.2 t (by rw [hsplit]; simp [h3])

/-- Facts about an upsert miss: the new row is appended with status pending
and the given context, the key-match count rises from zero to one, and
well-formedness survives. -/
theorem upsert_miss_facts (db : KB) (s a o r : String) (sid : Nat)
    (cs : List String) (sv : Bool) (hwf : KWF db)
    (hf : db.triplets.find? (keyMatch s a o sid) = none) :
    (upsert_triplet db s a o r sid cs sv).1.triplets =
      db.triplets ++ [newRow db s a o r sid cs sv] ∧
    db.triplets.countP (keyMatch s a o sid) = 0 ∧
    (upsert_triplet db s a o r sid cs sv).1.triplets.countP (keyMatch s a o sid) = 1 ∧
    KWF (upsert_triplet db s a o r sid cs sv).1 := by
  have hedb := upsert_miss_eq db s a o r sid cs sv hf
  have hall := List.find?_eq_none.mp hf
  have hzero : db.triplets.countP (keyMatch s a o sid) = 0 := by
    rw [List.countP_eq_zero]
    exact hall
  refine ⟨by rw [hedb], hzero, ?_, ?_, ?_⟩
  · rw [hedb]
    show (db.triplets ++ [newRow db s a o r sid cs sv]).countP (keyMatch s a o sid) = 1
    rw [List.countP_append, hzero, List.countP_singleton,
      if_pos (keyMatch_newRow db s a o r sid cs sv)]
  · rw [hedb]
    show ((db.triplets ++ [newRow db s a o r sid cs sv]).map fun t => t.id).Nodup
    rw [List.map_append]
    rw [List.nodup_append]
    refine ⟨hwf.1, by simp, ?_⟩
    intro x hx hx2
    simp only [List.map_cons, List.map_nil, List.mem_singleton] at hx2
    obtain ⟨t, ht, hteq⟩ := List.mem_map.mp hx
    have := hwf.2 t ht
    rw [hx2] at hteq
    simp [newRow] at hteq
    omega
  · rw [hedb]
    intro t ht
    show t.id < db.nextTripletId + 1
    rw [List.mem_append, List.mem_singleton] at ht
    rcases ht with h1 | h2
    · exact Nat.lt_succ_of_lt (hwf.2 t h1)
    · rw [h2]
      simp [newRow]

/-- One upsert call on a well-formed store with at most one key row leaves
exactly one key row, preserving well-formedness. -/
theorem upsert_countP_one (db : KB) (s a o r : String) (sid : Nat)
    (cs : List String) (sv : Bool) (hwf : KWF db)
    (hle : db.triplets.countP (keyMatch s a o sid) ≤ 1) :
    (upsert_triplet db s a o r sid cs sv).1.triplets.countP (keyMatch s a o sid) = 1 ∧
    KWF (upsert_triplet db s a o r sid cs sv).1 := by
  cases hf : db.triplets.find? (keyMatch s a o sid) with
  | some ex =>
    obtain ⟨-, -, hcount, hwf2⟩ := upsert_hit_facts db s a o r sid cs sv ex hwf hf
    have hmem : ex ∈ db.triplets := List.mem_of_find?_eq_some hf
    have hkey : keyMatch s a o sid ex = true := List.find?_some hf
    have hpos : 0 < db.triplets.countP (keyMatch s a o sid) :=
      List.countP_pos_iff.mpr ⟨ex, hmem, hkey⟩
    exact ⟨by omega, hwf2⟩
  | none =>
    obtain ⟨-, -, hone, hwf2⟩ := upsert_miss_facts db s a o r sid cs sv hwf hf
    exact ⟨hone, hwf2⟩

/-- Any non-empty upsert sequence over a well-formed store with at most one
key row leaves exactly one key row. -/
theorem run_upserts_countP (s a o r : String) (sid : Nat) :
    ∀ (calls : List (List String × Bool)) (db : KB), calls ≠ [] → KWF db →
      db.triplets.countP (keyMatch s a o sid) ≤ 1 →
      (run_upserts db s a o r sid calls).triplets.countP (keyMatch s a o sid) = 1 := by
  intro calls
  induction calls with
  | nil => intro db h _ _; exact absurd rfl h
  | cons c rest ih =>
    intro db _ hwf hle
    obtain ⟨h1, hwf2⟩ := upsert_countP_one db s a o r sid c.1 c.2 hwf hle
    rw [show run_upserts db s a o r sid (c :: rest) =
        run_upserts (upsert_triplet db s a o r sid c.1 c.2).1 s a o r sid rest from rfl]
    cases rest with
    | nil => exact h1
    | cons c2 r2 => exact ih _ (by simp) hwf2 (by omega)

/-- After an upsert that supplies context sentences, the key row found
first holds exactly those sentences. -/
theorem upsert_find_ctx_some (db : KB) (s a o r : String) (sid : Nat)
    (cs : List String) (sv : Bool) (hne : cs ≠ []) :
    ((upsert_triplet db s a o r sid cs sv).1.triplets.find? (keyMatch s a o sid)).map
      (fun t => t.context_sentences) = some cs := by
  have hemp : cs.isEmpty = false := by
    cases cs with
    | nil => exact absurd rfl hne
    | cons x xs => rfl
  cases hf : db.triplets.find? (keyMatch s a o sid) with
  | some ex =>
    have hkey : keyMatch s a o sid (updRow ex cs sv) = true := by
      rw [keyMatch_updRow]
      exact List.find?_some hf
    have hrep := find?_map_replace db.triplets ex (updRow ex cs sv)
      (keyMatch s a o sid) hf hkey
    rw [upsert_hit_eq db s a o r sid cs sv ex hf]
    show ((db.triplets.map fun t =>
        if t.id == ex.id then updRow ex cs sv else t).find?
      (keyMatch s a o sid)).map (fun t => t.context_sentences) = some cs
    rw [hrep]
    simp [updRow, hemp]
  | none =>
    rw [upsert_miss_eq db s a o r sid cs sv hf]
    show ((db.triplets ++ [newRow db s a o r sid cs sv]).find?
      (keyMatch s a o sid)).map (fun t => t.context_sentences) = some cs
    rw [List.find?_append, hf]
    simp [keyMatch, newRow]

/-- An upsert that supplies no context sentences keeps the context of the
first key row. -/
theorem upsert_find_ctx_keep (db : KB) (s a o r : String) (sid : Nat)
    (sv : Bool) (cs2 : List String)
    (h : (db.triplets.find? (keyMatch s a o sid)).map
      (fun t => t.context_sentences) = some cs2) :
    ((upsert_triplet db s a o r sid [] sv).1.triplets.find? (keyMatch s a o sid)).map
      (fun t => t.context_sentences) = some cs2 := by
  cases hf : db.triplets.find? (keyMatch s a o sid) with
  | none => rw [hf] at h; simp at h
  | some ex =>
    rw [hf] at h
    replace h : ex.context_sentences = cs2 := by simpa using h
    have hkey : keyMatch s a o sid (updRow ex [] sv) = true := by
      rw [keyMatch_updRow]
      exact List.find?_some hf
    have hrep := find?_map_replace db.triplets ex (updRow ex [] sv)
      (keyMatch s a o sid) hf hkey
    rw [upsert_hit_eq db s a o r sid [] sv ex hf]
    show ((db.triplets.map fun t =>
        if t.id == ex.id then updRow ex [] sv else t).find?
      (keyMatch s a o sid)).map (fun t => t.context_sentences) = some cs2
    rw [hrep]
    simp [updRow, h]

/-- After any upsert sequence, the key row holds the context sentences of
the most recent call that supplied any. -/
theorem run_upserts_lastctx (s a o r : String) (sid : Nat) :
    ∀ (calls : List (List String × Bool)) (db : KB) (cs2 : List String),
      lastNonEmptyCtx calls = some cs2 →
      ((run_upserts db s a o r sid calls).triplets.find? (keyMatch s a o sid)).map
        (fun t => t.context_sentences) = some cs2 := by
  intro calls
  induction calls using List.reverseRecOn with
  | nil => intro db cs2 h; simp [lastNonEmptyCtx] at h
  | append_singleton rest c ih =>
    intro db cs2 h
    have hrun : run_upserts db s a o r sid (rest ++ [c]) =
        (upsert_triplet (run_upserts db s a o r sid rest) s a o r sid c.1 c.2).1 := by
      unfold run_upserts
      rw [List.foldl_append]
      rfl
    have hlast : lastNonEmptyCtx (rest ++ [c]) =
        (if c.1.isEmpty then lastNonEmptyCtx rest else some c.1) := by
      unfold lastNonEmptyCtx
      rw [List.foldl_append]
      rfl
    rw [hlast] at h
    rw [hrun]
    cases hemp : c.1.isEmpty with
    | false =>
      rw [hemp, if_neg (by decide)] at h
      injection h with h
      have hne : c.1 ≠ [] := by
        intro hx
        rw [hx] at hemp
        simp at hemp
      rw [← h]
      exact upsert_find_ctx_some _ s a o r sid c.1 c.2 hne
    | true =>
      rw [hemp, if_pos rfl] at h
      have hc : c.1 = [] := by
        cases hc1 : c.1 with
        | nil => rfl
        | cons x xs => rw [hc1] at hemp; simp at hemp
      rw [hc]
      exact upsert_find_ctx_keep _ s a o r sid c.2 cs2 (ih db cs2 h)

/-- C3: the upsert contract.  On a hit the returned row is the found row
with context overwritten only when the supplied list is non-empty and the
validity flag overwritten, the status column of the table is untouched, and
no row is added or removed; on a miss the new row is appended with status
pending; any non-empty sequence of upserts on one key leaves exactly one
row with that key, whose context sentences are those of the most recent
non-empty call. -/
theorem C3_upsert_contract (db : KB) (s a o r : String) (sid : Nat)
    (cs : List String) (sv : Bool) (hwf : KWF db) :
    (∀ ex, db.triplets.find? (keyMatch s a o sid) = some ex →
      (upsert_triplet db s a o r sid cs sv).2 = updRow ex cs sv ∧
      (upsert_triplet db s a o r sid cs sv).2.status = ex.status ∧
      (upsert_triplet db s a o r sid cs sv).2.schema_valid = sv ∧
      (upsert_triplet db s a o r sid cs sv).2.context_sentences =
        (if cs = [] then ex.context_sentences else cs) ∧
      (upsert_triplet db s a o r sid cs sv).1.triplets.length = db.triplets.length ∧
      (upsert_triplet db s a o r sid cs sv).1.triplets.map (fun t => t.status) =
        db.triplets.map (fun t => t.status) ∧
      (upsert_triplet db s a o r sid cs sv).1.triplets.countP (keyMatch s a o sid) =
        db.triplets.countP (keyMatch s a o sid)) ∧
    (db.triplets.find? (keyMatch s a o sid) = none →
      (upsert_triplet db s a o r sid cs sv).1.triplets =
        db.triplets ++ [(upsert_triplet db s a o r sid cs sv).2] ∧
      (upsert_triplet db s a o r sid cs sv).2 = newRow db s a o r sid cs sv ∧
      (upsert_triplet db s a o r sid cs sv).2.status = "pending") ∧
    (∀ calls, calls ≠ [] → db.triplets.countP (keyMatch s a o sid) ≤ 1 →
      (run_upserts db s a o r sid calls).triplets.countP (keyMatch s a o sid) = 1) ∧
    (∀ calls cs2, lastNonEmptyCtx calls = some cs2 →
      ((run_upserts db s a o r sid calls).triplets.find? (keyMatch s a o sid)).map
        (fun t => t.context_sentences) = some cs2) := by
  refine ⟨?_, ?_, ?_, ?_⟩
  · intro ex hf
    have hsnd : (upsert_triplet db s a o r sid cs sv).2 = updRow ex cs sv := by
      rw [upsert_hit_eq db s a o r sid cs sv ex hf]
    obtain ⟨hlen, hstat, hcount, -⟩ := upsert_hit_facts db s a o r sid cs sv ex hwf hf
    refine ⟨hsnd, by rw [hsnd]; rfl, by rw [hsnd]; rfl, ?_, hlen, hstat, hcount⟩
    rw [hsnd]
    cases cs with
    | nil => simp [updRow]
    | cons x xs => simp [updRow]
  · intro hf
    have heq := upsert_miss_eq db s a o r sid cs sv hf
    have hsnd : (upsert_triplet db s a o r sid cs sv).2 = newRow db s a o r sid cs sv := by
      rw [heq]
    refine ⟨?_, hsnd, by rw [hsnd]; rfl⟩
    rw [heq]
  · intro calls hne hle
    exact run_upserts_countP s a o r sid calls db hne hwf hle
  · intro calls cs2 h
    exact run_upserts_lastctx s a o r sid calls db cs2 h

/-- Witness for C3_upsert_contract: two upserts on one key (the second
supplying context) leave one key row carrying that context. -/
theorem C3_upsert_contract_w :
    (run_upserts kbE "s" "a" "o" "R" 1 [([], false), (["ctx one"], true)]).triplets.countP
      (keyMatch "s" "a" "o" 1) = 1 ∧
    ((run_upserts kbE "s" "a" "o" "R" 1
        [([], false), (["ctx one"], true)]).triplets.find?
      (keyMatch "s" "a" "o" 1)).map (fun t => t.context_sentences) =
      some ["ctx one"] := by
  have hwf : KWF kbE := by
    constructor
    · simp [kbE]
    · intro t ht
      simp [kbE] at ht
  have h := C3_upsert_contract kbE "s" "a" "o" "R" 1 [] false hwf
  exact ⟨h.2.2.1 [([], false), (["ctx one"], true)] (by simp) (by simp [kbE]),
         h.2.2.2 [([], false), (["ctx one"], true)] ["ctx one"] rfl⟩

/-!
## C5: provenance verification — normalization machinery
-/

/-- joinSpace on a cons: the word, then a space when more words follow. -/
theorem joinSpace_cons (w : List Char) (ws : List (List Char)) :
    joinSpace (w :: ws) = w ++ (if ws = [] then [] else ' ' :: joinSpace ws) := by
  cases ws with
  | nil => simp [joinSpace]
  | cons x xs => rfl

/-- norm maps all-whitespace input to the empty word list. -/
theorem norm_eq_nil_iff (s : List Char) : norm s = [] ↔ ∀ c ∈ s, pyWs c = true := by
  induction s with
  | nil => simp [norm]
  | cons c cs ih =>
    cases hws : pyWs c with
    | true =>
      rw [show norm (c :: cs) = norm cs by simp [norm, hws]]
      simp [ih, hws]
    | false =>
      rw [show norm (c :: cs) = c :: normIn cs by simp [norm, hws]]
      simp [hws]

/-- pysplit returns no words exactly on all-whitespace input. -/
theorem pysplit_eq_nil_iff (s : List Char) :
    pysplit s = [] ↔ ∀ c ∈ s, pyWs c = true := by
  induction s using pysplit.induct with
  | case1 => simp [pysplit]
  | case2 c cs hws ih =>
    rw [show pysplit (c :: cs) = pysplit cs by simp [pysplit, hws]]
    simp [ih, hws]
  | case3 c cs hws ih =>
    rw [show pysplit (c :: cs) =
        (c :: cs.takeWhile fun d => !pyWs d) :: pysplit (cs.dropWhile fun d => !pyWs d)
      by simp [pysplit, hws]]
    simp [hws]

/-- Characterisation of normIn by the first word and the rest. -/
theorem normIn_eq (cs : List Char) :
    normIn cs = (cs.takeWhile fun d => !pyWs d) ++
      (if norm (cs.dropWhile fun d => !pyWs d) = [] then []
       else ' ' :: norm (cs.dropWhile fun d => !pyWs d)) := by
  induction cs with
  | nil => simp [normIn, norm]
  | cons d cs ih =>
    cases hws : pyWs d with
    | true =>
      rw [show normIn (d :: cs) = (if norm cs = [] then [] else ' ' :: norm cs)
        by simp [normIn, hws]]
      rw [show ((d :: cs).takeWhile fun c => !pyWs c) = [] by simp [hws]]
      rw [show ((d :: cs).dropWhile fun c => !pyWs c) = d :: cs by simp [hws]]
      rw [show norm (d :: cs) = norm cs by simp [norm, hws]]
      simp
    | false =>
      rw [show normIn (d :: cs) = d :: normIn cs by simp [normIn, hws]]
      rw [show ((d :: cs).takeWhile fun c => !pyWs c) = d :: (cs.takeWhile fun c => !pyWs c)
        by simp [hws]]
      rw [show ((d :: cs).dropWhile fun c => !pyWs c) = cs.dropWhile fun c => !pyWs c
        by simp [hws]]
      rw [ih]
      simp

/-- The split-and-join normalization equals its recursive characterisation. -/
theorem pynormalize_eq_norm (s : List Char) : pynormalize s = norm s := by
  induction s using pysplit.induct with
  | case1 => simp [pynormalize, pysplit, joinSpace, norm]
  | case2 c cs hws ih =>
    unfold pynormalize at ih ⊢
    rw [show pysplit (c :: cs) = pysplit cs by simp [pysplit, hws]]
    rw [show norm (c :: cs) = norm cs by simp [norm, hws]]
    exact ih
  | case3 c cs hws ih =>
    unfold pynormalize at ih ⊢
    rw [show pysplit (c :: cs) =
        (c :: cs.takeWhile fun d => !pyWs d) :: pysplit (cs.dropWhile fun d => !pyWs d)
      by simp [pysplit, hws]]
    rw [joinSpace_cons]
    rw [show norm (c :: cs) = c :: normIn cs by simp [norm, hws]]
    rw [normIn_eq cs]
    by_cases hnil : norm (cs.dropWhile fun d => !pyWs d) = []
    · rw [if_pos hnil, if_pos ((pysplit_eq_nil_iff _).mpr ((norm_eq_nil_iff _).mp hnil))]
      simp
    · have hnil2 : pysplit (cs.dropWhile fun d => !pyWs d) ≠ [] := by
        intro hx
        exact hnil ((norm_eq_nil_iff _).mpr ((pysplit_eq_nil_iff _).mp hx))
      rw [if_neg hnil, if_neg hnil2, ih]
      simp

/-- The first element surviving dropWhile fails the predicate. -/
theorem dropWhile_head_not (p : Char → Bool) (l : List Char) :
    ∀ c w, l.dropWhile p = c :: w → p c = false := by
  induction l with
  | nil => intro c w h; simp at h
  | cons x xs ih =>
    intro c w h
    rw [List.dropWhile_cons] at h
    by_cases hp : p x = true
    · rw [if_pos hp] at h
      exact ih c w h
    · rw [if_neg hp] at h
      injection h with h1 h2
      rw [← h1]
      simpa using hp

/-- Removing trailing whitespace leaves a prefix. -/
theorem dropTrail_leading (s : List Char) : dropTrail s <+: s := by
  have h : s.reverse.dropWhile pyWs <:+ s.reverse := List.dropWhile_suffix pyWs
  have h2 := h.reverse
  rwa [List.reverse_reverse] at h2

/-- What dropTrail removes is whitespace. -/
theorem dropTrail_decomp (s : List Char) :
    ∃ w, s = dropTrail s ++ w ∧ ∀ c ∈ w, pyWs c = true := by
  refine ⟨(s.reverse.takeWhile pyWs).reverse, ?_, ?_⟩
  · have h := List.takeWhile_append_dropWhile (p := pyWs) (l := s.reverse)
    have h2 := congrArg List.reverse h
    rw [List.reverse_append, List.reverse_reverse] at h2
    exact h2.symm
  · intro c hc
    rw [List.mem_reverse] at hc
    exact List.mem_takeWhile_imp hc

/-- norm and normIn vanish on all-whitespace input. -/
theorem norm_ws_nil (w : List Char) (hw : ∀ c ∈ w, pyWs c = true) :
    norm w = [] ∧ normIn w = [] := by
  induction w with
  | nil => exact ⟨by simp [norm], by simp [normIn]⟩
  | cons c cs ih =>
    have hc : pyWs c = true := hw c (by simp)
    have ih2 := ih fun d hd => hw d (by simp [hd])
    constructor
    · rw [show norm (c :: cs) = norm cs by simp [norm, hc]]
      exact ih2.1
    · rw [show normIn (c :: cs) = (if norm cs = [] then [] else ' ' :: norm cs)
        by simp [normIn, hc]]
      rw [if_pos ih2.1]

/-- Trailing whitespace does not change norm or normIn. -/
theorem norm_append_ws (w : List Char) (hw : ∀ c ∈ w, pyWs c = true) :
    ∀ s, norm (s ++ w) = norm s ∧ normIn (s ++ w) = normIn s := by
  intro s
  induction s with
  | nil =>
    simp only [List.nil_append]
    rw [show norm ([] : List Char) = [] by simp [norm]]
    rw [show normIn ([] : List Char) = [] by simp [normIn]]
    exact norm_ws_nil w hw
  | cons c cs ih =>
    cases hc : pyWs c with
    | true =>
      constructor
      · rw [List.cons_append]
        rw [show norm (c :: (cs ++ w)) = norm (cs ++ w) by simp [norm, hc]]
        rw [show norm (c :: cs) = norm cs by simp [norm, hc]]
        exact ih.1
      · rw [List.cons_append]
        rw [show normIn (c :: (cs ++ w)) =
            (if norm (cs ++ w) = [] then [] else ' ' :: norm (cs ++ w))
          by simp [normIn, hc]]
        rw [show normIn (c :: cs) = (if norm cs = [] then [] else ' ' :: norm cs)
          by simp [normIn, hc]]
        rw [ih.1]
    | false =>
      constructor
      · rw [List.cons_append]
        rw [show norm (c :: (cs ++ w)) = c :: normIn (cs ++ w) by simp [norm, hc]]
        rw [show norm (c :: cs) = c :: normIn cs by simp [norm, hc]]
        rw [ih.2]
      · rw [List.cons_append]
        rw [show normIn (c :: (cs ++ w)) = c :: normIn (cs ++ w) by simp [normIn, hc]]
        rw [show normIn (c :: cs) = c :: normIn cs by simp [normIn, hc]]
        rw [ih.2]

/-- Leading whitespace does not change norm. -/
theorem norm_dropWhile_ws (s : List Char) : norm (s.dropWhile pyWs) = norm s := by
  induction s with
  | nil => simp
  | cons c cs ih =>
    rw [List.dropWhile_cons]
    cases hc : pyWs c with
    | true =>
      rw [if_pos rfl]
      rw [show norm (c :: cs) = norm cs by simp [norm, hc]]
      exact ih
    | false => rw [if_neg (by decide)]

/-- Stripping does not change norm. -/
theorem norm_stripL (s : List Char) : norm (stripL s) = norm s := by
  obtain ⟨w, hdec, hws⟩ := dropTrail_decomp (s.dropWhile pyWs)
  calc norm (stripL s) = norm (stripL s ++ w) := (norm_append_ws w hws (stripL s)).1.symm
    _ = norm (s.dropWhile pyWs) := by rw [show stripL s ++ w = s.dropWhile pyWs from hdec.symm]
    _ = norm s := norm_dropWhile_ws s

/-- Stripping yields an infix. -/
theorem stripL_within (s : List Char) : stripL s <:+: s :=
  (dropTrail_leading (s.dropWhile pyWs)).isInfix.trans (List.dropWhile_suffix pyWs).isInfix

/-- A non-empty strip starts with a non-whitespace character. -/
theorem stripL_head_not (s : List Char) (c : Char) (w : List Char)
    (h : stripL s = c :: w) : pyWs c = false := by
  obtain ⟨t, ht⟩ := dropTrail_leading (s.dropWhile pyWs)
  rw [show dropTrail (s.dropWhile pyWs) = stripL s from rfl, h] at ht
  exact dropWhile_head_not pyWs s c (w ++ t) (by rw [← ht]; simp)

/-- Extending the input to the right extends norm and normIn on the right. -/
theorem norm_prefix_append (u r : List Char) :
    norm u <+: norm (u ++ r) ∧ normIn u <+: normIn (u ++ r) := by
  induction u with
  | nil =>
    constructor
    · rw [show norm ([] : List Char) = [] by simp [norm]]
      exact List.nil_prefix
    · rw [show normIn ([] : List Char) = [] by simp [normIn]]
      exact List.nil_prefix
  | cons c u ih =>
    cases hc : pyWs c with
    | true =>
      constructor
      · rw [show norm (c :: u) = norm u by simp [norm, hc]]
        rw [List.cons_append]
        rw [show norm (c :: (u ++ r)) = norm (u ++ r) by simp [norm, hc]]
        exact ih.1
      · rw [show normIn (c :: u) = (if norm u = [] then [] else ' ' :: norm u)
          by simp [normIn, hc]]
        rw [List.cons_append]
        rw [show normIn (c :: (u ++ r)) =
            (if norm (u ++ r) = [] then [] else ' ' :: norm (u ++ r))
          by simp [normIn, hc]]
        by_cases hnil : norm u = []
        · rw [if_pos hnil]
          exact List.nil_prefix
        · rw [if_neg hnil, if_neg (ih.1.ne_nil hnil)]
          exact List.cons_prefix_cons.mpr ⟨rfl, ih.1⟩
    | false =>
      constructor
      · rw [show norm (c :: u) = c :: normIn u by simp [norm, hc]]
        rw [List.cons_append]
        rw [show norm (c :: (u ++ r)) = c :: normIn (u ++ r) by simp [norm, hc]]
        exact List.cons_prefix_cons.mpr ⟨rfl, ih.2⟩
      · rw [show normIn (c :: u) = c :: normIn u by simp [normIn, hc]]
        rw [List.cons_append]
        rw [show normIn (c :: (u ++ r)) = c :: normIn (u ++ r) by simp [normIn, hc]]
        exact List.cons_prefix_cons.mpr ⟨rfl, ih.2⟩

/-- norm of a suffix that starts with a non-whitespace character is a
suffix of both norm and normIn of the whole. -/
theorem norm_suffix_of_suffix (t : List Char) :
    ∀ u : List Char, (∀ c w, u = c :: w → pyWs c = false) → u <:+ t →
      norm u <:+ norm t ∧ norm u <:+ normIn t := by
  induction t with
  | nil =>
    intro u _ hsuf
    rw [List.suffix_nil.mp hsuf]
    rw [show norm ([] : List Char) = [] by simp [norm]]
    rw [show normIn ([] : List Char) = [] by simp [normIn]]
    exact ⟨List.nil_suffix, List.nil_suffix⟩
  | cons c t ih =>
    intro u hclean hsuf
    rcases List.suffix_cons_iff.mp hsuf with heq | hsuf2
    · have hc : pyWs c = false := hclean c t heq
      rw [heq]
      rw [show norm (c :: t) = c :: normIn t by simp [norm, hc]]
      rw [show normIn (c :: t) = c :: normIn t by simp [normIn, hc]]
      exact ⟨List.suffix_refl _, List.suffix_refl _⟩
    · obtain ⟨h1, h2⟩ := ih u hclean hsuf2
      constructor
      · cases hc : pyWs c with
        | true =>
          rw [show norm (c :: t) = norm t by simp [norm, hc]]
          exact h1
        | false =>
          rw [show norm (c :: t) = c :: normIn t by simp [norm, hc]]
          exact h2.trans (List.suffix_cons c (normIn t))
      · cases hc : pyWs c with
        | true =>
          rw [show normIn (c :: t) = (if norm t = [] then [] else ' ' :: norm t)
            by simp [normIn, hc]]
          by_cases hnil : norm t = []
          · rw [if_pos hnil]
            rw [hnil] at h1
            exact h1
          · rw [if_neg hnil]
            exact h1.trans (List.suffix_cons ' ' (norm t))
        | false =>
          rw [show normIn (c :: t) = c :: normIn t by simp [normIn, hc]]
          exact h2.trans (List.suffix_cons c (normIn t))

/-- norm preserves the infix relation for patterns that start with a
non-whitespace character. -/
theorem norm_infix_of_infix (u t : List Char)
    (hclean : ∀ c w, u = c :: w → pyWs c = false) (h : u <:+: t) :
    norm u <:+: norm t := by
  cases u with
  | nil =>
    rw [show norm ([] : List Char) = [] by simp [norm]]
    exact List.nil_infix
  | cons c0 u0 =>
    obtain ⟨s, hpre, hsuf⟩ := List.infix_iff_prefix_suffix.mp h
    obtain ⟨r, hr⟩ := hpre
    have hcleans : ∀ c w, s = c :: w → pyWs c = false := by
      intro c w hs
      rw [← hr] at hs
      rw [List.cons_append] at hs
      injection hs with hch _
      rw [← hch]
      exact hclean c0 u0 rfl
    have h1 : norm (c0 :: u0) <+: norm s := by
      rw [← hr]
      exact (norm_prefix_append (c0 :: u0) r).1
    have h2 : norm s <:+ norm t := (norm_suffix_of_suffix t s hcleans hsuf).1
    exact List.infix_iff_prefix_suffix.mpr ⟨norm s, h1, h2⟩

/-- The code's per-sentence check coincides with the specification's: the
sentence strip only widens the first test into cases the normalized retry
already accepts. -/
theorem sentence_verified_eq_spec (s src : List Char) :
    sentence_verified s src = spec_sentence_verified s src := by
  have hB : pynormalize (stripL (lowerL s)) = pynormalize (lowerL s) := by
    rw [pynormalize_eq_norm, pynormalize_eq_norm, norm_stripL]
  rw [Bool.eq_iff_iff]
  simp only [sentence_verified, spec_sentence_verified, Bool.or_eq_true,
    decide_eq_true_eq]
  constructor
  · rintro (h | h)
    · right
      rw [pynormalize_eq_norm, pynormalize_eq_norm]
      cases hu : stripL (lowerL s) with
      | nil =>
        rw [← norm_stripL, hu]
        rw [show norm ([] : List Char) = [] by simp [norm]]
        exact List.nil_infix
      | cons c w =>
        have hclean : ∀ c2 w2, stripL (lowerL s) = c2 :: w2 → pyWs c2 = false := by
          intro c2 w2 h2
          exact stripL_head_not (lowerL s) c2 w2 h2
        have := norm_infix_of_infix (stripL (lowerL s)) (lowerL src) hclean h
        rwa [norm_stripL] at this
    · right
      rwa [hB] at h
  · rintro (h | h)
    · left
      exact (stripL_within (lowerL s)).trans h
    · right
      rwa [hB]

/-- Bool column accessor commutes with tagging by map. -/
theorem all_map_snd (cs : List (List Char)) (p : List Char → Bool) :
    (cs.map (fun s => (s, p s))).all (fun r => r.2) = cs.all p := by
  induction cs with
  | nil => rfl
  | cons c t ih => simp only [List.map_cons, List.all_cons, ih]

/-- Counting tagged rows equals counting by the tag predicate. -/
theorem filter_map_snd_length (cs : List (List Char)) (p : List Char → Bool) :
    ((cs.map (fun s => (s, p s))).filter (fun r => r.2)).length =
      (cs.filter p).length := by
  induction cs with
  | nil => rfl
  | cons c t ih =>
    simp only [List.map_cons, List.filter_cons]
    cases hp : p c <;> simp [hp, ih]

/-- C5: verify_context_sentences marks each sentence exactly per the
specification criterion (case-insensitive substring, else substring after
whitespace-run collapsing on both sides), allVerified holds exactly when
every sentence is verified, and the counts are the number of verified
sentences and the list length. -/
theorem C5_provenance_verification (cs : List (List Char)) (src : List Char) :
    (verify_context_sentences cs src).results =
      cs.map (fun s => (s, spec_sentence_verified s src)) ∧
    (verify_context_sentences cs src).all_verified =
      cs.all (fun s => spec_sentence_verified s src) ∧
    (verify_context_sentences cs src).verified_count =
      (cs.filter fun s => spec_sentence_verified s src).length ∧
    (verify_context_sentences cs src).total_count = cs.length := by
  have hmapeq : cs.map (fun s => (s, sentence_verified s src)) =
      cs.map (fun s => (s, spec_sentence_verified s src)) := by
    apply List.map_congr_left
    intro s _
    rw [sentence_verified_eq_spec]
  refine ⟨?_, ?_, ?_, ?_⟩
  · show cs.map (fun s => (s, sentence_verified s src)) =
      cs.map (fun s => (s, spec_sentence_verified s src))
    exact hmapeq
  · show (cs.map (fun s => (s, sentence_verified s src))).all (fun r => r.2) =
      cs.all (fun s => spec_sentence_verified s src)
    rw [hmapeq]
    exact all_map_snd cs fun s => spec_sentence_verified s src
  · show ((cs.map (fun s => (s, sentence_verified s src))).filter
      (fun r => r.2)).length = (cs.filter fun s => spec_sentence_verified s src).length
    rw [hmapeq]
    exact filter_map_snd_length cs fun s => spec_sentence_verified s src
  · show (cs.map (fun s => (s, sentence_verified s src))).length = cs.length
    rw [List.length_map]

/-- Concrete evaluation of the verifier on the specification's example: a
sentence present up to surrounding whitespace verifies, an absent sentence
does not. -/
theorem verify_context_sentences_example :
    (verify_context_sentences ["Metformin is first-line.".data]
      "Intro text. Metformin is first-line.\nMore".data).all_verified = true ∧
    (verify_context_sentences ["Absent sentence.".data]
      "Intro text. Metformin is first-line.\nMore".data).all_verified = false := by
  have hv : ∀ (s src : List Char),
      (verify_context_sentences [s] src).all_verified = sentence_verified s src := by
    intro s src
    simp [verify_context_sentences]
  have e : ∀ s src : List Char, sentence_verified s src =
      (decide (stripL (lowerL s) <:+: lowerL src) ||
       decide (norm (stripL (lowerL s)) <:+: norm (lowerL src))) := by
    intro s src
    simp only [sentence_verified]
    rw [pynormalize_eq_norm, pynormalize_eq_norm]
  constructor
  · rw [hv, e]
    decide
  · rw [hv, e]
    decide

end MCQ
